import Mathlib

/-!
Verification of the SQL-safety and tool-orchestration layer of the
Netflix-titles natural-language query assistant.

The development shallowly embeds the Python source:
* strings are `List Char`;
* `str.strip` / `str.lower` / `str.replace` / `str.count` are modelled by
  `pyStrip` / `pyLower` / `replaceAll` / `List.count`;
* `_normalise_query`, `execute_query`, `create_support_ticket` and
  `run_agent` are modelled by functions of the same names, with the
  OpenAI calls, the SQLite engine and the wall clock supplied as
  explicit oracle parameters;
* raised exceptions are modelled with `Except`.
-/

/-- The characters of a string literal, as a list. -/
def chars (s : String) : List Char := s.data

/-- The single-quote character `'` (used to build SQL literals). -/
def sqc : Char := Char.ofNat 39

/-- The double-quote character `"` (used to build SQL literals). -/
def dqc : Char := Char.ofNat 34

/-- The characters removed by Python `str.strip()` with no argument. -/
def pyIsSpace (c : Char) : Bool :=
  c = ' ' || c = '\t' || c = '\n' || c = '\r' || c = '\x0b' || c = '\x0c'

/-- Python `str.lower` on a single character (ASCII range, which is all
the validation in `_normalise_query` inspects). -/
def pyLower (c : Char) : Char :=
  if c.toNat ≥ 65 ∧ c.toNat ≤ 90 then Char.ofNat (c.toNat + 32) else c

/-- Python `str.strip()`: drop leading and trailing whitespace. -/
def pyStrip (s : List Char) : List Char :=
  (((s.dropWhile pyIsSpace).reverse.dropWhile pyIsSpace).reverse)

/-- Fuel-driven worker for `replaceAll`.  One unit of fuel is spent per
position of the scanned string, so `fuel = s.length` always suffices. -/
def replaceAllGo (p r : List Char) : Nat → List Char → List Char
  | _, [] => []
  | 0, s => s
  | fuel + 1, c :: rest =>
    if p ≠ [] ∧ p.isPrefixOf (c :: rest) then
      r ++ replaceAllGo p r fuel ((c :: rest).drop p.length)
    else
      c :: replaceAllGo p r fuel rest

/-- Python `str.replace(p, r)` for a nonempty pattern `p`: scan left to
right, replacing every non-overlapping occurrence of `p` by `r`. -/
def replaceAll (p r s : List Char) : List Char :=
  replaceAllGo p r s.length s

/-- Boolean substring test: does `p` occur verbatim inside `s`? -/
def containsB (p : List Char) : List Char → Bool
  | [] => p.isEmpty
  | c :: rest => p.isPrefixOf (c :: rest) || containsB p rest

/-- First raw pattern recognised by `_normalise_query`:
`json_each(directors)`. -/
def pat1 : List Char := chars ("json_each(directors)")

/-- Second raw pattern recognised by `_normalise_query`:
`json_each(IFNULL(directors, ''))`. -/
def pat2 : List Char :=
  chars ("json_each(IFNULL(directors, ") ++ [sqc, sqc, ')', ')']

/-- The `replacement` string of `_normalise_query`, i.e. the SQL
expression synthesising a JSON array literal from the comma-separated
`directors` column. -/
def replacementExpr : List Char :=
  [sqc, '[', dqc, sqc] ++ chars (" || REPLACE(REPLACE(IFNULL(directors, ")
    ++ [sqc, sqc] ++ chars ("), ") ++ [sqc, dqc, sqc] ++ chars (", ")
    ++ [sqc, sqc] ++ chars ("), ") ++ [sqc, ',', sqc] ++ chars (", ")
    ++ [sqc, dqc, ',', dqc, sqc] ++ chars (") || ") ++ [sqc, dqc, ']', sqc]

/-- The full safe substitute inserted for either raw pattern:
`json_each({replacement})`. -/
def safePat : List Char := chars ("json_each(") ++ replacementExpr ++ [')']

/-- The `ValueError`s raised by `_normalise_query` (the spec's
`InvalidQueryError`), one constructor per `raise` site. -/
inductive InvalidQueryError
  | emptyQuery
  | notSelect
  | multipleStatements
deriving DecidableEq

/-- The statement-shape test of `_normalise_query`:
`lowered.startswith("select") or lowered.startswith("with")` applied to
the stripped, lower-cased input. -/
def startsSelectOrWith (sql : List Char) : Bool :=
  (chars ("select")).isPrefixOf ((pyStrip sql).map pyLower)
    || (chars ("with")).isPrefixOf ((pyStrip sql).map pyLower)

/-- `_normalise_query` from `streamlit_app.py`: reject empty input,
require the stripped lower-cased statement to start with `select` or
`with`, substitute the safe JSON expansion for both raw patterns, and
reject results holding more than one `;`. -/
def normalise_query (sql : List Char) : Except InvalidQueryError (List Char) :=
  if sql = [] then .error .emptyQuery
  else
    let stripped := pyStrip sql
    if !(startsSelectOrWith sql) then .error .notSelect
    else
      let safe1 := replaceAll pat1 safePat stripped
      let safe2 := replaceAll pat2 safePat safe1
      if 1 < (pyStrip safe2).count ';' then .error .multipleStatements
      else .ok safe2

/-- `true` on `Except.ok`, `false` on `Except.error`. -/
def exceptIsOk {ε α : Type} : Except ε α → Bool
  | .ok _ => true
  | .error _ => false

/-- `MAX_ROWS` from `streamlit_app.py`. -/
def MAX_ROWS : Nat := 200

/-- The decimal digit character for `n < 10`. -/
def digitChar (n : Nat) : Char := Char.ofNat (48 + n)

/-- Fuel-driven worker for `decRepr`; `fuel = n + 1` always suffices
because the argument shrinks by a factor of ten each step. -/
def decReprGo : Nat → Nat → List Char
  | 0, _ => []
  | fuel + 1, n =>
    if n < 10 then [digitChar n]
    else decReprGo fuel (n / 10) ++ [digitChar (n % 10)]

/-- Decimal rendering of a natural number, as Python renders an `int`
inside an f-string (no sign, no leading zeros, `0` renders as `"0"`). -/
def decRepr (n : Nat) : List Char := decReprGo (n + 1) n

/-- Zero-padding to a fixed width, as in `datetime.isoformat`'s
`%04d`/`%02d`/`%06d` fields. -/
def padZeros (width n : Nat) : List Char :=
  List.replicate (width - (decRepr n).length) '0' ++ decRepr n

/-- A wall-clock reading broken into the calendar components that
`datetime.utcnow()` reports. -/
structure DateTimeParts where
  year : Nat
  month : Nat
  day : Nat
  hour : Nat
  minute : Nat
  second : Nat
  usec : Nat
deriving DecidableEq

/-- `datetime.isoformat()` on a `utcnow()` value:
`YYYY-MM-DDTHH:MM:SS` followed by `.ffffff` exactly when the microsecond
field is nonzero (stdlib behaviour, modelled at the external boundary). -/
def isoTimestamp (t : DateTimeParts) : List Char :=
  padZeros 4 t.year ++ ['-'] ++ padZeros 2 t.month ++ ['-'] ++ padZeros 2 t.day
    ++ ['T'] ++ padZeros 2 t.hour ++ [':'] ++ padZeros 2 t.minute
    ++ [':'] ++ padZeros 2 t.second
    ++ (if t.usec = 0 then [] else ['.'] ++ padZeros 6 t.usec)

/-- The ticket identifier `f"T-{int(datetime.utcnow().timestamp())}"`.
The creation instant is modelled as integer microseconds since the
epoch, so `int(... .timestamp())` is division by `10^6`. -/
def ticketId (epochMicros : Nat) : List Char :=
  chars ("T-") ++ decRepr (epochMicros / 1000000)

/-- The sanitisation in `create_support_ticket`:
`.replace("\n", " ").replace(",", " ")`. -/
def sanitizeField (s : List Char) : List Char :=
  replaceAll [','] [' '] (replaceAll ['\n'] [' '] s)

/-- The header row written by `_ensure_ticket_store`. -/
def ticketHeader : List Char :=
  chars ("ticket_id,title,description,priority,created_at\n")

/-- `_ensure_ticket_store`: the ticket file is modelled as
`Option (List Char)` (`none` = file absent); an absent file is created
holding only the header row, an existing file is kept as is. -/
def ensure_ticket_store : Option (List Char) → List Char
  | none => ticketHeader
  | some f => f

/-- The dictionary returned by `create_support_ticket` (it reports the
unsanitised title and omits the description, exactly as the source). -/
structure Ticket where
  ticket_id : List Char
  title : List Char
  priority : List Char
  created_at : List Char
deriving DecidableEq

/-- The comma-joined record body appended by `create_support_ticket`
(everything before the terminating newline). -/
def ticketBody (now : DateTimeParts) (epochMicros : Nat)
    (title description priority : List Char) : List Char :=
  ticketId epochMicros ++ [','] ++ sanitizeField title ++ [',']
    ++ sanitizeField description ++ [','] ++ priority ++ [',']
    ++ isoTimestamp now

/-- `create_support_ticket` from `streamlit_app.py`.  The two
`datetime.utcnow()` readings are passed explicitly: `now` feeds
`isoformat()` and `epochMicros` feeds `timestamp()`.  Returns the
ticket dictionary and the new contents of the ticket file. -/
def create_support_ticket (now : DateTimeParts) (epochMicros : Nat)
    (title description priority : List Char) (store : Option (List Char)) :
    Ticket × List Char :=
  ({ ticket_id := ticketId epochMicros
   , title := title
   , priority := priority
   , created_at := isoTimestamp now },
   ensure_ticket_store store
     ++ ticketBody now epochMicros title description priority ++ ['\n'])

/-- A SQLite value (reals are irrelevant to every claim and omitted). -/
inductive SQLVal
  | nullV
  | intV (i : Int)
  | textV (s : List Char)
deriving DecidableEq

/-- A fetched database row. -/
abbrev Row := List SQLVal

/-- The exceptions escaping `execute_query`: the `ValueError` of
`_normalise_query` or an engine-level `sqlite3` error. -/
inductive ExecError
  | invalid (e : InvalidQueryError)
  | engine (msg : List Char)
deriving DecidableEq

/-- `execute_query` from `streamlit_app.py`.  The engine is the oracle
`db`, mapping the executed SQL text to column names and the full result
sequence.  `fetchmany(MAX_ROWS)` is `take MAX_ROWS`; the truthiness
test `if cursor.fetchone():` reads the next row, and the returned
`Bool` records whether the truncation warning was logged. -/
def execute_query
    (db : List Char → Except (List Char) (List (List Char) × List Row))
    (sql : List Char) : Except ExecError (List (List Char) × List Row × Bool) :=
  match normalise_query sql with
  | .error e => .error (.invalid e)
  | .ok safe_sql =>
    match db safe_sql with
    | .error msg => .error (.engine msg)
    | .ok (cols, allRows) =>
      let rows := allRows.take MAX_ROWS
      match (allRows.drop MAX_ROWS).head? with
      | some nextRow =>
        if nextRow ≠ [] then .ok (cols, rows.take MAX_ROWS, true)
        else .ok (cols, rows, false)
      | none => .ok (cols, rows, false)

/-- A parsed JSON argument object with string values, as produced by
`json.loads` on a tool call's `arguments`. -/
abbrev ArgMap := List (List Char × List Char)

/-- Dictionary lookup `m[key]` returning `none` when absent. -/
def amGet : ArgMap → List Char → Option (List Char)
  | [], _ => none
  | (k, v) :: rest, key => if k = key then some v else amGet rest key

/-- Python `dict.get(key, default)`. -/
def amGetD (m : ArgMap) (key deflt : List Char) : List Char :=
  (amGet m key).getD deflt

/-- A failure of one `chat_completion_request` call: an HTTP-status
error (carrying `err.response.text` and `str(err)`) or any other
exception (carrying `str(err)`). -/
inductive CallFailure
  | http (responseText strRepr : List Char)
  | other (strRepr : List Char)
deriving DecidableEq

/-- `str(err)` of a call failure. -/
def strOfFailure : CallFailure → List Char
  | .http _ s => s
  | .other s => s

/-- The first choice of a successful model response.  `queryArg` is the
combined outcome of `json.loads(arguments)` followed by
`arguments["query"]` (both failure modes are caught by one `except`);
`ticketArgs` is the outcome of `json.loads(arguments)` alone. -/
structure Choice where
  finishReason : Option (List Char)
  content : Option (List Char)
  fnName : Option (List Char)
  queryArg : Except (List Char) (List Char)
  ticketArgs : Except (List Char) ArgMap

/-- The external world of one `run_agent` invocation: the API key flag,
the two OpenAI calls and the database engine. -/
structure Env where
  hasApiKey : Bool
  first : Except CallFailure Choice
  followUp : Except CallFailure (Option (List Char))
  db : List Char → Except (List Char) (List (List Char) × List Row)

/-- The dictionary returned by `run_agent`; absent keys are `none`. -/
structure AgentResult where
  text : Option (List Char) := none
  columns : Option (List (List Char)) := none
  rows : Option (List Row) := none
  query : Option (List Char) := none
  ticket : Option Ticket := none
  error : Option (List Char) := none
deriving DecidableEq

/-- `f"OpenAI API error: {err.response.text}"` /
`f"OpenAI request failed: {err}"` from the first call's handlers. -/
def firstCallErrMsg : CallFailure → List Char
  | .http body _ => chars ("OpenAI API error: ") ++ body
  | .other s => chars ("OpenAI request failed: ") ++ s

/-- The query branch's follow-up handlers:
`f"OpenAI API error on follow-up call: {err.response.text}"` /
`f"OpenAI follow-up failed: {err}"`. -/
def followUpErrMsg : CallFailure → List Char
  | .http body _ => chars ("OpenAI API error on follow-up call: ") ++ body
  | .other s => chars ("OpenAI follow-up failed: ") ++ s

/-- The `ValueError` messages raised by `_normalise_query`. -/
def invalidQueryMsg : InvalidQueryError → List Char
  | .emptyQuery => chars ("Empty SQL query.")
  | .notSelect =>
    chars ("Only SELECT statements (optionally starting with WITH) are allowed.")
  | .multipleStatements => chars ("Multiple statements are not allowed.")

/-- `f"Database error: {err}"` wrapping whatever `execute_query` raised. -/
def execErrMsg : ExecError → List Char
  | .invalid e => chars ("Database error: ") ++ invalidQueryMsg e
  | .engine msg => chars ("Database error: ") ++ msg

/-- `run_agent` from `streamlit_app.py`, with the conversation-message
bookkeeping (which nothing observes) elided.  Returns the result
dictionary together with the ticket-store contents after the call. -/
def run_agent (env : Env) (now : DateTimeParts) (epochMicros : Nat)
    (store : Option (List Char)) : AgentResult × Option (List Char) :=
  if env.hasApiKey = false then
    ({ error := some (chars ("OPENAI_API_KEY is not set. Add it to your .env file.")) }, store)
  else
    match env.first with
    | .error f => ({ error := some (firstCallErrMsg f) }, store)
    | .ok choice =>
      if choice.finishReason ≠ some (chars ("function_call")) then
        ({ text := some (choice.content.getD (chars ("No response received."))) }, store)
      else if choice.fnName = some (chars ("ask_database")) then
        match choice.queryArg with
        | .error e =>
          ({ error := some (chars ("Failed to parse function arguments: ") ++ e) }, store)
        | .ok query =>
          match execute_query env.db query with
          | .error e => ({ error := some (execErrMsg e) }, store)
          | .ok (cols, rows, _warned) =>
            match env.followUp with
            | .error f =>
              ({ error := some (followUpErrMsg f)
               , columns := some cols, rows := some rows }, store)
            | .ok contentOpt =>
              ({ text := some (pyStrip (contentOpt.getD []))
               , columns := some cols, rows := some rows
               , query := some query }, store)
      else if choice.fnName = some (chars ("create_support_ticket")) then
        match choice.ticketArgs with
        | .error e =>
          ({ error := some (chars ("Failed to parse function arguments: ") ++ e) }, store)
        | .ok args =>
          let res := create_support_ticket now epochMicros
            (amGetD args (chars ("title")) (chars ("Untitled issue")))
            (amGetD args (chars ("description")) [])
            (amGetD args (chars ("priority")) (chars ("medium"))) store
          match env.followUp with
          | .error f =>
            ({ text := some (chars ("Ticket created: ") ++ res.1.ticket_id
                 ++ chars (". (Follow-up call failed: ") ++ strOfFailure f ++ [')'])
             , ticket := some res.1 }, some res.2)
          | .ok contentOpt =>
            ({ text := some (pyStrip (contentOpt.getD []))
             , ticket := some res.1 }, some res.2)
      else
        ({ error := some (chars ("Unknown function requested: ")
             ++ choice.fnName.getD (chars ("None"))) }, store)

/-! ### Basic facts about `replaceAll` -/

/-- `isPrefixOf` agrees with the `<+:` relation. -/
theorem isPrefixOf_eq_true {l1 l2 : List Char} :
    l1.isPrefixOf l2 = true ↔ l1 <+: l2 :=
  List.isPrefixOf_iff_prefix

/-- Any two prefixes of one list are comparable. -/
theorem prefix_total {l1 l2 l3 : List Char} (h1 : l1 <+: l3) (h2 : l2 <+: l3) :
    l1 <+: l2 ∨ l2 <+: l1 :=
  List.prefix_or_prefix_of_prefix h1 h2

/-- The fuel argument of `replaceAllGo` is irrelevant once it covers the
length of the scanned string. -/
theorem replaceAllGo_congr (p r : List Char) :
    ∀ f1 f2 s, s.length ≤ f1 → s.length ≤ f2 →
      replaceAllGo p r f1 s = replaceAllGo p r f2 s := by
  intro f1
  induction f1 with
  | zero =>
    intro f2 s h1 _
    have hs : s = [] := List.eq_nil_of_length_eq_zero (Nat.le_zero.mp h1)
    subst hs
    cases f2 <;> simp [replaceAllGo]
  | succ f ih =>
    intro f2 s h1 h2
    cases s with
    | nil => cases f2 <;> simp [replaceAllGo]
    | cons c rest =>
      cases f2 with
      | zero => simp at h2
      | succ f2c =>
        by_cases h : p ≠ [] ∧ p.isPrefixOf (c :: rest)
        · have hp : 0 < p.length := List.length_pos.mpr h.1
          simp only [replaceAllGo, if_pos h]
          have hlen : ((c :: rest).drop p.length).length ≤ f := by
            simp only [List.length_drop, List.length_cons]
            simp only [List.length_cons] at h1
            omega
          have hlen2 : ((c :: rest).drop p.length).length ≤ f2c := by
            simp only [List.length_drop, List.length_cons]
            simp only [List.length_cons] at h2
            omega
          rw [ih f2c _ hlen hlen2]
        · simp only [replaceAllGo, if_neg h]
          have hlen : rest.length ≤ f := by
            simp only [List.length_cons] at h1; omega
          have hlen2 : rest.length ≤ f2c := by
            simp only [List.length_cons] at h2; omega
          rw [ih f2c _ hlen hlen2]

/-- Unfolding `replaceAll` at a matching position. -/
theorem replaceAll_cons_pos {p : List Char} (r : List Char) {c : Char}
    {rest : List Char} (h : p ≠ [] ∧ p.isPrefixOf (c :: rest)) :
    replaceAll p r (c :: rest) =
      r ++ replaceAll p r ((c :: rest).drop p.length) := by
  have hp : 0 < p.length := List.length_pos.mpr h.1
  show replaceAllGo p r (rest.length + 1) (c :: rest) = _
  simp only [replaceAllGo, if_pos h]
  congr 1
  exact replaceAllGo_congr p r rest.length ((c :: rest).drop p.length).length _
    (by simp only [List.length_drop, List.length_cons]; omega) (Nat.le_refl _)

/-- Unfolding `replaceAll` at a non-matching position. -/
theorem replaceAll_cons_neg {p : List Char} (r : List Char) {c : Char}
    {rest : List Char} (h : ¬(p ≠ [] ∧ p.isPrefixOf (c :: rest))) :
    replaceAll p r (c :: rest) = c :: replaceAll p r rest := by
  show replaceAllGo p r (rest.length + 1) (c :: rest) = _
  simp only [replaceAllGo, if_neg h]
  rfl

/-- `replaceAll` on the empty string. -/
theorem replaceAll_nil (p r : List Char) : replaceAll p r [] = [] := rfl

/-- `containsB` decides the infix relation. -/
theorem containsB_iff (p : List Char) :
    ∀ s, containsB p s = true ↔ p <:+: s := by
  intro s
  induction s with
  | nil => simp [containsB, List.isEmpty_iff]
  | cons c rest ih =>
    simp only [containsB, Bool.or_eq_true, ih, isPrefixOf_eq_true,
      List.infix_cons_iff]

/-- A suffix of `a ++ b` is either a suffix of `b` or all of `b`
preceded by a suffix of `a`. -/
theorem suffix_append_cases {t a b : List Char} (h : t <:+ a ++ b) :
    t <:+ b ∨ ∃ x, x <:+ a ∧ t = x ++ b := by
  obtain ⟨s, hs⟩ := h
  rcases List.append_eq_append_iff.mp hs with ⟨w, hw1, hw2⟩ | ⟨w, hw1, hw2⟩
  · right
    exact ⟨w, ⟨s, hw1.symm⟩, hw2⟩
  · left
    exact ⟨w, hw2.symm⟩

/-- A nonempty suffix of `q` is `q.drop i` for some `i < q.length`. -/
theorem suffix_eq_drop {yc q : List Char} (h : yc <:+ q) (hne : yc ≠ []) :
    ∃ i, i < q.length ∧ q.length = i + yc.length ∧ yc = q.drop i := by
  obtain ⟨w, hw⟩ := h
  refine ⟨w.length, ?_, ?_, ?_⟩
  · have := congrArg List.length hw
    simp only [List.length_append] at this
    have hpos : 0 < yc.length := List.length_pos.mpr hne
    omega
  · have := congrArg List.length hw
    simp only [List.length_append] at this
    omega
  · rw [← hw, List.drop_left]

/-- Transfer of prefixes through `replaceAll`: when no nonempty suffix
of `y` is a prefix of the replacement `r` and `y` is at most as long as
`r`, a prefix `y` of the rewritten string was already a prefix of the
input. -/
theorem prefix_replaceAll_transfer (p r : List Char) :
    ∀ n s y, s.length ≤ n → y.length ≤ r.length →
      (∀ yc, yc <:+ y → yc ≠ [] → ¬ yc <+: r) →
      y <+: replaceAll p r s → y <+: s := by
  intro n
  induction n with
  | zero =>
    intro s y hs _ _ hy
    have hnil : s = [] := List.eq_nil_of_length_eq_zero (Nat.le_zero.mp hs)
    subst hnil
    rw [replaceAll_nil] at hy
    exact hy
  | succ n ih =>
    intro s y hs hylen hcond hy
    cases s with
    | nil =>
      rw [replaceAll_nil] at hy
      exact hy
    | cons c rest =>
      by_cases h : p ≠ [] ∧ p.isPrefixOf (c :: rest)
      · rw [replaceAll_cons_pos r h] at hy
        rcases prefix_total hy (List.prefix_append r _) with hyr | hry
        · by_cases hy0 : y = []
          · subst hy0; exact List.nil_prefix
          · exact absurd hyr (hcond y (List.suffix_refl y) hy0)
        · have hyeq : r = y := List.IsPrefix.eq_of_length_le hry hylen
          by_cases hy0 : y = []
          · subst hy0; exact List.nil_prefix
          · exact absurd (hyeq ▸ List.prefix_refl y) (hcond y (List.suffix_refl y) hy0)
      · rw [replaceAll_cons_neg r h] at hy
        cases y with
        | nil => exact List.nil_prefix
        | cons a ys =>
          rw [List.cons_prefix_cons] at hy
          obtain ⟨rfl, hys⟩ := hy
          have hrest : ys <+: rest := by
            refine ih rest ys ?_ ?_ ?_ hys
            · simp only [List.length_cons] at hs; omega
            · simp only [List.length_cons] at hylen; omega
            · intro yc hyc hne
              exact hcond yc (hyc.trans (List.suffix_cons a ys)) hne
          exact List.cons_prefix_cons.mpr ⟨rfl, hrest⟩

/-- Core rewriting lemma.  Assume the probe string `q` does not occur in
the replacement `r`, no nonempty proper prefix of `q` is a suffix of
`r`, no nonempty proper suffix of `q` is a prefix of `r`, and `q` is at
most as long as `r`.  Then rewriting `p → r` leaves no occurrence of
`q`, provided `q` is the replaced pattern itself or `q` did not occur
in the input. -/
theorem not_infix_replaceAll {p r q : List Char} (hq : q ≠ [])
    (hlen : q.length ≤ r.length)
    (h1 : ¬ q <:+: r)
    (h2 : ∀ i, i < q.length → 0 < i → ¬ (q.take i <:+ r))
    (h3 : ∀ i, i < q.length → 0 < i → ¬ (q.drop i <+: r)) :
    ∀ n s, s.length ≤ n → (q = p ∨ ¬ q <:+: s) →
      ¬ q <:+: replaceAll p r s := by
  intro n
  induction n with
  | zero =>
    intro s hs _ hocc
    have hnil : s = [] := List.eq_nil_of_length_eq_zero (Nat.le_zero.mp hs)
    subst hnil
    rw [replaceAll_nil] at hocc
    exact hq (List.infix_nil.mp hocc)
  | succ n ih =>
    intro s hs hqs hocc
    cases s with
    | nil =>
      rw [replaceAll_nil] at hocc
      exact hq (List.infix_nil.mp hocc)
    | cons c rest =>
      by_cases h : p ≠ [] ∧ p.isPrefixOf (c :: rest)
      · rw [replaceAll_cons_pos r h] at hocc
        have hplen : 0 < p.length := List.length_pos.mpr h.1
        have hdrop_len : ((c :: rest).drop p.length).length ≤ n := by
          simp only [List.length_drop, List.length_cons]
          simp only [List.length_cons] at hs
          omega
        have hdrop_side : q = p ∨ ¬ q <:+: (c :: rest).drop p.length := by
          rcases hqs with hqp | hnot
          · exact Or.inl hqp
          · refine Or.inr fun hcontra => hnot ?_
            exact hcontra.trans (List.IsSuffix.isInfix (List.drop_suffix _ _))
        rw [List.infix_iff_prefix_suffix] at hocc
        obtain ⟨t, hqt, hts⟩ := hocc
        rcases suffix_append_cases hts with htO | ⟨x, hxr, rfl⟩
        · exact ih _ hdrop_len hdrop_side
            (List.infix_iff_prefix_suffix.mpr ⟨t, hqt, htO⟩)
        · rcases prefix_total hqt (List.prefix_append x _) with hqx | hxq
          · exact h1 (List.infix_iff_prefix_suffix.mpr ⟨x, hqx, hxr⟩)
          · by_cases hx0 : x = []
            · subst hx0
              exact ih _ hdrop_len hdrop_side
                (List.IsPrefix.isInfix hqt)
            · by_cases hxlen : x.length = q.length
              · have hxeq : x = q := List.IsPrefix.eq_of_length hxq hxlen
                subst hxeq
                exact h1 (List.IsSuffix.isInfix hxr)
              · have hxlt : x.length < q.length :=
                  Nat.lt_of_le_of_ne (List.IsPrefix.length_le hxq) hxlen
                have hxtake : x = q.take x.length := List.prefix_iff_eq_take.mp hxq
                exact h2 x.length hxlt (List.length_pos.mpr hx0) (hxtake ▸ hxr)
      · rw [replaceAll_cons_neg r h] at hocc
        rw [List.infix_cons_iff] at hocc
        have hrest_len : rest.length ≤ n := by
          simp only [List.length_cons] at hs; omega
        rcases hocc with hpre | hocc2
        · cases q with
          | nil => exact hq rfl
          | cons a qs =>
            rw [List.cons_prefix_cons] at hpre
            obtain ⟨hac, hqs_pre⟩ := hpre
            have hqs_rest : qs <+: rest := by
              refine prefix_replaceAll_transfer p r n rest qs hrest_len ?_ ?_ hqs_pre
              · simp only [List.length_cons] at hlen; omega
              · intro yc hyc hne
                obtain ⟨i, hi, hilen, hyceq⟩ :=
                  suffix_eq_drop (hyc.trans (List.suffix_cons a qs)) hne
                have hipos : 0 < i := by
                  have hyclen : yc.length ≤ qs.length := List.IsSuffix.length_le hyc
                  simp only [List.length_cons] at hilen
                  omega
                exact hyceq ▸ h3 i hi hipos
            have hqpre : (a :: qs) <+: (c :: rest) :=
              List.cons_prefix_cons.mpr ⟨hac, hqs_rest⟩
            rcases hqs with hqp | hnot
            · exact h ⟨hqp ▸ (by simp), isPrefixOf_eq_true.mpr (hqp ▸ hqpre)⟩
            · exact hnot (List.IsPrefix.isInfix hqpre)
        · have hside : q = p ∨ ¬ q <:+: rest := by
            rcases hqs with hqp | hnot
            · exact Or.inl hqp
            · exact Or.inr fun hcontra =>
                hnot (List.infix_cons_iff.mpr (Or.inr hcontra))
          exact ih rest hrest_len hside hocc2

/-- `replaceAll` is the identity when the pattern is absent. -/
theorem replaceAll_of_not_infix (p r : List Char) :
    ∀ n s, s.length ≤ n → ¬ p <:+: s → replaceAll p r s = s := by
  intro n
  induction n with
  | zero =>
    intro s hs _
    have hnil : s = [] := List.eq_nil_of_length_eq_zero (Nat.le_zero.mp hs)
    subst hnil
    exact replaceAll_nil p r
  | succ n ih =>
    intro s hs hocc
    cases s with
    | nil => exact replaceAll_nil p r
    | cons c rest =>
      have hno : ¬ (p ≠ [] ∧ p.isPrefixOf (c :: rest)) := by
        rintro ⟨-, hpre⟩
        exact hocc (List.IsPrefix.isInfix (isPrefixOf_eq_true.mp hpre))
      rw [replaceAll_cons_neg r hno]
      have hrest : ¬ p <:+: rest := fun hcontra =>
        hocc (List.infix_cons_iff.mpr (Or.inr hcontra))
      rw [ih rest (by simp only [List.length_cons] at hs; omega) hrest]

/-- `replaceAll` preserves the count of any character counted equally
by the pattern and the replacement. -/
theorem count_replaceAll (a : Char) {p r : List Char}
    (hpr : p.count a = r.count a) :
    ∀ n s, s.length ≤ n → (replaceAll p r s).count a = s.count a := by
  intro n
  induction n with
  | zero =>
    intro s hs
    have hnil : s = [] := List.eq_nil_of_length_eq_zero (Nat.le_zero.mp hs)
    subst hnil
    rw [replaceAll_nil]
  | succ n ih =>
    intro s hs
    cases s with
    | nil => rw [replaceAll_nil]
    | cons c rest =>
      by_cases h : p ≠ [] ∧ p.isPrefixOf (c :: rest)
      · rw [replaceAll_cons_pos r h]
        have hplen : 0 < p.length := List.length_pos.mpr h.1
        have hsplit : p ++ (c :: rest).drop p.length = c :: rest :=
          List.prefix_iff_eq_append.mp (isPrefixOf_eq_true.mp h.2)
        have hdlen : ((c :: rest).drop p.length).length ≤ n := by
          simp only [List.length_drop, List.length_cons]
          simp only [List.length_cons] at hs
          omega
        calc (r ++ replaceAll p r ((c :: rest).drop p.length)).count a
            = r.count a + (replaceAll p r ((c :: rest).drop p.length)).count a := by
              rw [List.count_append]
          _ = p.count a + ((c :: rest).drop p.length).count a := by
              rw [ih _ hdlen, hpr]
          _ = (p ++ (c :: rest).drop p.length).count a := by
              rw [List.count_append]
          _ = (c :: rest).count a := by rw [hsplit]
      · rw [replaceAll_cons_neg r h]
        have hrlen : rest.length ≤ n := by
          simp only [List.length_cons] at hs; omega
        rcases instDecidableEqChar c a with hne | heq
        · simp only [List.count_cons, ih rest hrlen]
        · simp only [List.count_cons, ih rest hrlen]

/-- If the pattern matches nowhere in the first `k` positions, the
rewrite leaves the first `k` characters untouched. -/
theorem replaceAll_take_drop (p r : List Char) :
    ∀ k s, (∀ i, i < k → ¬ (p ≠ [] ∧ p.isPrefixOf (s.drop i))) →
      replaceAll p r s = s.take k ++ replaceAll p r (s.drop k) := by
  intro k
  induction k with
  | zero => intro s _; simp
  | succ k ih =>
    intro s hcond
    cases s with
    | nil => simp [replaceAll_nil]
    | cons c rest =>
      have h0 : ¬ (p ≠ [] ∧ p.isPrefixOf (c :: rest)) := by
        have := hcond 0 (Nat.succ_pos k)
        simpa using this
      rw [replaceAll_cons_neg r h0]
      have hrec : replaceAll p r rest = rest.take k ++ replaceAll p r (rest.drop k) := by
        refine ih rest fun i hi => ?_
        have := hcond (i + 1) (by omega)
        simpa using this
      rw [hrec]
      simp

/-- The last character of a rewritten string is the last character of
the input or of the replacement. -/
theorem getLast?_replaceAll (p r : List Char) (hr : r ≠ []) :
    ∀ n s, s.length ≤ n → s ≠ [] →
      replaceAll p r s ≠ [] ∧
        ((replaceAll p r s).getLast? = s.getLast? ∨
          (replaceAll p r s).getLast? = r.getLast?) := by
  intro n
  induction n with
  | zero =>
    intro s hs hne
    exact absurd (List.eq_nil_of_length_eq_zero (Nat.le_zero.mp hs)) hne
  | succ n ih =>
    intro s hs hne
    cases s with
    | nil => exact absurd rfl hne
    | cons c rest =>
      by_cases h : p ≠ [] ∧ p.isPrefixOf (c :: rest)
      · rw [replaceAll_cons_pos r h]
        have hplen : 0 < p.length := List.length_pos.mpr h.1
        have hsplit : p ++ (c :: rest).drop p.length = c :: rest :=
          List.prefix_iff_eq_append.mp (isPrefixOf_eq_true.mp h.2)
        by_cases hd : (c :: rest).drop p.length = []
        · rw [hd, replaceAll_nil, List.append_nil]
          exact ⟨hr, Or.inr rfl⟩
        · have hdlen : ((c :: rest).drop p.length).length ≤ n := by
            simp only [List.length_drop, List.length_cons]
            simp only [List.length_cons] at hs
            omega
          obtain ⟨hOne, hOl⟩ := ih _ hdlen hd
          constructor
          · simp [hOne]
          · have happ : (r ++ replaceAll p r ((c :: rest).drop p.length)).getLast? =
                (replaceAll p r ((c :: rest).drop p.length)).getLast? := by
              rw [List.getLast?_append]
              cases ho : (replaceAll p r ((c :: rest).drop p.length)).getLast? with
              | none => exact absurd (List.getLast?_eq_none_iff.mp ho) hOne
              | some v => rfl
            have hlast_s : ((c :: rest).drop p.length).getLast? = (c :: rest).getLast? := by
              conv_rhs => rw [← hsplit]
              rw [List.getLast?_append]
              cases ho : ((c :: rest).drop p.length).getLast? with
              | none => exact absurd (List.getLast?_eq_none_iff.mp ho) hd
              | some v => rfl
            rw [happ]
            rcases hOl with h1 | h2
            · exact Or.inl (h1.trans hlast_s)
            · exact Or.inr h2
      · rw [replaceAll_cons_neg r h]
        by_cases hrest : rest = []
        · subst hrest
          rw [replaceAll_nil]
          exact ⟨by simp, Or.inl rfl⟩
        · have hrlen : rest.length ≤ n := by
            simp only [List.length_cons] at hs; omega
          obtain ⟨hOne, hOl⟩ := ih rest hrlen hrest
          constructor
          · simp
          · have hcons : (c :: replaceAll p r rest).getLast? =
                (replaceAll p r rest).getLast? := by
              show ([c] ++ replaceAll p r rest).getLast? = _
              rw [List.getLast?_append]
              cases ho : (replaceAll p r rest).getLast? with
              | none => exact absurd (List.getLast?_eq_none_iff.mp ho) hOne
              | some v => rfl
            have hlast_s : rest.getLast? = (c :: rest).getLast? := by
              show _ = ([c] ++ rest).getLast?
              rw [List.getLast?_append]
              cases ho : rest.getLast? with
              | none => exact absurd (List.getLast?_eq_none_iff.mp ho) hrest
              | some v => rfl
            rw [hcons]
            rcases hOl with h1 | h2
            · exact Or.inl (h1.trans hlast_s)
            · exact Or.inr h2

/-! ### Facts about `pyStrip` -/

/-- The head of a `dropWhile` result falsifies the predicate. -/
theorem head?_dropWhile_false {p : Char → Bool} {l : List Char} {c : Char}
    (h : (l.dropWhile p).head? = some c) : p c = false := by
  have := List.head?_dropWhile_not p l
  rw [h] at this
  exact this

/-- `dropWhile` is the identity when the head falsifies the predicate. -/
theorem dropWhile_eq_self_of_head {p : Char → Bool} {l : List Char}
    (h : ∀ c, l.head? = some c → p c = false) : l.dropWhile p = l := by
  cases l with
  | nil => rfl
  | cons a rest =>
    have := h a rfl
    simp [List.dropWhile_cons, this]

/-- The last element of a nonempty suffix is the last element of the
whole list. -/
theorem getLast?_of_suffix {l t : List Char} (h : t <:+ l) (hne : t ≠ []) :
    l.getLast? = t.getLast? := by
  obtain ⟨w, hw⟩ := h
  rw [← hw, List.getLast?_append]
  cases ho : t.getLast? with
  | none => exact absurd (List.getLast?_eq_none_iff.mp ho) hne
  | some v => rfl

/-- Stripping preserves the count of every non-whitespace character. -/
theorem count_pyStrip (a : Char) (ha : pyIsSpace a = false) (s : List Char) :
    (pyStrip s).count a = s.count a := by
  have key : ∀ l : List Char, (l.dropWhile pyIsSpace).count a = l.count a := by
    intro l
    conv_rhs => rw [← List.takeWhile_append_dropWhile pyIsSpace l]
    rw [List.count_append]
    have hz : (l.takeWhile pyIsSpace).count a = 0 := by
      rw [List.count_eq_zero]
      intro hmem
      have := List.mem_takeWhile_imp hmem
      rw [ha] at this
      exact Bool.false_ne_true this
    omega
  unfold pyStrip
  rw [List.count_reverse, key, List.count_reverse, key]

/-- The first character of a nonempty stripped string is not
whitespace. -/
theorem pyStrip_head_not_space {s : List Char} {c : Char}
    (h : (pyStrip s).head? = some c) : pyIsSpace c = false := by
  unfold pyStrip at h
  rw [List.head?_reverse] at h
  have hsuf : (((s.dropWhile pyIsSpace).reverse).dropWhile pyIsSpace) <:+
      (s.dropWhile pyIsSpace).reverse := List.dropWhile_suffix pyIsSpace
  have hne : (((s.dropWhile pyIsSpace).reverse).dropWhile pyIsSpace) ≠ [] := by
    intro hnil
    rw [hnil] at h
    exact Option.noConfusion h
  have := getLast?_of_suffix hsuf hne
  rw [← this, List.getLast?_reverse] at h
  exact head?_dropWhile_false h

/-- The last character of a nonempty stripped string is not
whitespace. -/
theorem pyStrip_getLast_not_space {s : List Char} {c : Char}
    (h : (pyStrip s).getLast? = some c) : pyIsSpace c = false := by
  unfold pyStrip at h
  rw [List.getLast?_reverse] at h
  exact head?_dropWhile_false h

/-- A string whose first and last characters are not whitespace strips
to itself. -/
theorem pyStrip_eq_self {s : List Char}
    (hh : ∀ c, s.head? = some c → pyIsSpace c = false)
    (hl : ∀ c, s.getLast? = some c → pyIsSpace c = false) :
    pyStrip s = s := by
  unfold pyStrip
  rw [dropWhile_eq_self_of_head hh]
  rw [dropWhile_eq_self_of_head ?hrev]
  case hrev =>
    intro c hc
    rw [List.head?_reverse] at hc
    exact hl c hc
  exact List.reverse_reverse s

/-! ### Characterising `normalise_query` -/

/-- Success of `normalise_query`, unfolded: the input is nonempty and
keyword-shaped, the rewritten text holds at most one `;`, and the
output is the stripped input with both substitutions applied. -/
theorem normalise_query_ok_iff {sql out : List Char} :
    normalise_query sql = .ok out ↔
      sql ≠ [] ∧ startsSelectOrWith sql = true ∧
      ¬ 1 < (pyStrip (replaceAll pat2 safePat
        (replaceAll pat1 safePat (pyStrip sql)))).count ';' ∧
      out = replaceAll pat2 safePat (replaceAll pat1 safePat (pyStrip sql)) := by
  by_cases h0 : sql = []
  · simp [normalise_query, h0]
  · by_cases h1 : startsSelectOrWith sql = true
    · by_cases h2 : 1 < (pyStrip (replaceAll pat2 safePat
          (replaceAll pat1 safePat (pyStrip sql)))).count ';'
      · simp [normalise_query, h0, h1, h2]
      · simp [normalise_query, h0, h1, h2, eq_comm]
    · have h1f : startsSelectOrWith sql = false := by
        cases hx : startsSelectOrWith sql
        · rfl
        · exact absurd hx h1
      simp [normalise_query, h0, h1f]

/-- The number of `;` in the rewritten, re-stripped statement equals
the number in the raw input: neither pattern nor replacement holds a
`;`, and `;` is not whitespace. -/
theorem count_semi_normalised (sql : List Char) :
    (pyStrip (replaceAll pat2 safePat
      (replaceAll pat1 safePat (pyStrip sql)))).count ';' = sql.count ';' := by
  have hsp : pyIsSpace ';' = false := by decide
  have h1 : pat1.count ';' = safePat.count ';' := by decide
  have h2 : pat2.count ';' = safePat.count ';' := by decide
  rw [count_pyStrip ';' hsp, count_replaceAll ';' h2 _ _ (Nat.le_refl _),
    count_replaceAll ';' h1 _ _ (Nat.le_refl _), count_pyStrip ';' hsp]

set_option maxRecDepth 8000 in
/-- `pat1` meets the boundary side conditions of
`not_infix_replaceAll` with respect to `safePat`. -/
theorem pat1_conditions :
    pat1 ≠ [] ∧ pat1.length ≤ safePat.length ∧ ¬ pat1 <:+: safePat ∧
      (∀ i, i < pat1.length → 0 < i → ¬ (pat1.take i <:+ safePat)) ∧
      (∀ i, i < pat1.length → 0 < i → ¬ (pat1.drop i <+: safePat)) :=
  ⟨by decide, by decide, by decide, by decide, by decide⟩

set_option maxRecDepth 8000 in
/-- `pat2` meets the boundary side conditions of
`not_infix_replaceAll` with respect to `safePat`. -/
theorem pat2_conditions :
    pat2 ≠ [] ∧ pat2.length ≤ safePat.length ∧ ¬ pat2 <:+: safePat ∧
      (∀ i, i < pat2.length → 0 < i → ¬ (pat2.take i <:+ safePat)) ∧
      (∀ i, i < pat2.length → 0 < i → ¬ (pat2.drop i <+: safePat)) :=
  ⟨by decide, by decide, by decide, by decide, by decide⟩

/-- After normalisation neither raw pattern occurs in the output. -/
theorem normalised_no_patterns {sql out : List Char}
    (h : normalise_query sql = .ok out) :
    ¬ pat1 <:+: out ∧ ¬ pat2 <:+: out := by
  obtain ⟨-, -, -, hout⟩ := normalise_query_ok_iff.mp h
  obtain ⟨hne1, hlen1, hin1, hpre1, hsuf1⟩ := pat1_conditions
  obtain ⟨hne2, hlen2, hin2, hpre2, hsuf2⟩ := pat2_conditions
  subst hout
  constructor
  · have hstage1 : ¬ pat1 <:+: replaceAll pat1 safePat (pyStrip sql) :=
      not_infix_replaceAll hne1 hlen1 hin1 hpre1 hsuf1 _ _ (Nat.le_refl _)
        (Or.inl rfl)
    exact not_infix_replaceAll hne1 hlen1 hin1 hpre1 hsuf1 _ _ (Nat.le_refl _)
      (Or.inr hstage1)
  · exact not_infix_replaceAll hne2 hlen2 hin2 hpre2 hsuf2 _ _ (Nat.le_refl _)
      (Or.inl rfl)

/-- A prefix of the lowered statement avoiding `'j'` blocks any match
of a `'j'`-headed pattern within its span. -/
theorem no_early_match {st w pat : List Char} (hw : w <+: st.map pyLower)
    (hj : 'j' ∉ w) (hpat : pat.head? = some 'j') :
    ∀ i, i < w.length → ¬ (pat ≠ [] ∧ pat.isPrefixOf (st.drop i)) := by
  rintro i hi ⟨-, hpre⟩
  have hpre2 : pat <+: st.drop i := isPrefixOf_eq_true.mp hpre
  cases pat with
  | nil => exact Option.noConfusion hpat
  | cons a tl =>
    injection hpat with ha
    subst ha
    obtain ⟨t, ht⟩ := hpre2
    have hmap : (st.map pyLower).drop i = 'j' :: (tl ++ t).map pyLower := by
      rw [← List.map_drop, ← ht]
      have hpj : pyLower 'j' = 'j' := by decide
      simp [hpj]
    have hwd : w.drop i <+: (st.map pyLower).drop i := List.IsPrefix.drop hw i
    rw [List.drop_eq_getElem_cons hi, hmap, List.cons_prefix_cons] at hwd
    exact hj (hwd.1 ▸ List.getElem_mem hi)

/-- The span of the leading keyword survives both substitutions. -/
theorem normalised_keyword_take {st w : List Char} (hw : w <+: st.map pyLower)
    (hj : 'j' ∉ w) :
    ∃ tail, replaceAll pat2 safePat (replaceAll pat1 safePat st) =
      st.take w.length ++ tail := by
  have hp1 : pat1.head? = some 'j' := by decide
  have hp2 : pat2.head? = some 'j' := by decide
  have hwlen : w.length ≤ st.length := by
    have := List.IsPrefix.length_le hw
    simpa using this
  have hstage1 : replaceAll pat1 safePat st =
      st.take w.length ++ replaceAll pat1 safePat (st.drop w.length) :=
    replaceAll_take_drop pat1 safePat w.length st (no_early_match hw hj hp1)
  have hw1 : w <+: (st.take w.length
      ++ replaceAll pat1 safePat (st.drop w.length)).map pyLower := by
    rw [List.map_append, List.map_take]
    have hweq : w = (st.map pyLower).take w.length :=
      List.prefix_iff_eq_take.mp hw
    rw [← hweq]
    exact List.prefix_append w _
  have hstage2 : replaceAll pat2 safePat
        (st.take w.length ++ replaceAll pat1 safePat (st.drop w.length)) =
      (st.take w.length ++ replaceAll pat1 safePat (st.drop w.length)).take w.length
        ++ replaceAll pat2 safePat
          ((st.take w.length ++ replaceAll pat1 safePat (st.drop w.length)).drop w.length) :=
    replaceAll_take_drop pat2 safePat w.length _ (no_early_match hw1 hj hp2)
  refine ⟨replaceAll pat2 safePat
    ((st.take w.length ++ replaceAll pat1 safePat (st.drop w.length)).drop w.length), ?_⟩
  rw [hstage1, hstage2]
  congr 1
  exact List.take_left' (by simp [List.length_take]; omega)

/-- Unfolding the keyword test of `_normalise_query`. -/
theorem startsSelectOrWith_iff {sql : List Char} :
    startsSelectOrWith sql = true ↔
      chars ("select") <+: (pyStrip sql).map pyLower ∨
      chars ("with") <+: (pyStrip sql).map pyLower := by
  unfold startsSelectOrWith
  rw [Bool.or_eq_true, isPrefixOf_eq_true, isPrefixOf_eq_true]

/-- The first character survives both substitutions when the lowered
statement starts with a `'j'`-free keyword. -/
theorem normalised_head {st w : List Char} (hw : w <+: st.map pyLower)
    (hj : 'j' ∉ w) (hwne : w ≠ []) :
    (replaceAll pat2 safePat (replaceAll pat1 safePat st)).head? = st.head? := by
  obtain ⟨tail, htail⟩ := normalised_keyword_take hw hj
  rw [htail]
  cases st with
  | nil =>
    rw [List.map_nil, List.prefix_nil] at hw
    exact absurd hw hwne
  | cons c rest =>
    cases hwl : w.length with
    | zero => exact absurd (List.eq_nil_of_length_eq_zero hwl) hwne
    | succ m => simp

/-- The last character of the rewritten statement is the last of the
input or the last of `safePat`. -/
theorem normalised_getLast {st : List Char} (hne : st ≠ []) :
    replaceAll pat2 safePat (replaceAll pat1 safePat st) ≠ [] ∧
      ((replaceAll pat2 safePat (replaceAll pat1 safePat st)).getLast? =
          st.getLast? ∨
        (replaceAll pat2 safePat (replaceAll pat1 safePat st)).getLast? =
          safePat.getLast?) := by
  have hsp : safePat ≠ [] := by decide
  obtain ⟨h1ne, h1l⟩ :=
    getLast?_replaceAll pat1 safePat hsp st.length st (Nat.le_refl _) hne
  obtain ⟨h2ne, h2l⟩ :=
    getLast?_replaceAll pat2 safePat hsp
      (replaceAll pat1 safePat st).length _ (Nat.le_refl _) h1ne
  refine ⟨h2ne, ?_⟩
  rcases h2l with h2a | h2b
  · rcases h1l with h1a | h1b
    · exact Or.inl (h2a.trans h1a)
    · exact Or.inr (h2a.trans h1b)
  · exact Or.inr h2b

/-! ### Facts about decimal rendering, timestamps and ticket records -/

/-- The ten digit characters. -/
theorem digitChar_toNat : ∀ k, k < 10 → (digitChar k).toNat = 48 + k := by
  decide

/-- Every character produced by `decReprGo` is a decimal digit. -/
theorem decReprGo_digits :
    ∀ fuel n, ∀ c ∈ decReprGo fuel n, 48 ≤ c.toNat ∧ c.toNat ≤ 57 := by
  intro fuel
  induction fuel with
  | zero => intro n c hc; exact absurd hc (List.not_mem_nil c)
  | succ f ih =>
    intro n c hc
    by_cases h10 : n < 10
    · simp only [decReprGo, if_pos h10, List.mem_singleton] at hc
      subst hc
      rw [digitChar_toNat n h10]
      omega
    · simp only [decReprGo, if_neg h10, List.mem_append,
        List.mem_singleton] at hc
      rcases hc with hc | hc
      · exact ih (n / 10) c hc
      · subst hc
        rw [digitChar_toNat (n % 10) (Nat.mod_lt n (by omega))]
        omega

/-- Every character of `decRepr n` is a decimal digit. -/
theorem decRepr_digits {n : Nat} {c : Char} (hc : c ∈ decRepr n) :
    48 ≤ c.toNat ∧ c.toNat ≤ 57 :=
  decReprGo_digits (n + 1) n c hc

/-- `decReprGo` renders the value it was given. -/
theorem decReprGo_val : ∀ fuel n, n < fuel →
    Nat.ofDigits 10 (((decReprGo fuel n).reverse).map fun c => c.toNat - 48)
      = n := by
  intro fuel
  induction fuel with
  | zero => intro n h; omega
  | succ f ih =>
    intro n h
    by_cases h10 : n < 10
    · simp only [decReprGo, if_pos h10, List.reverse_cons, List.reverse_nil,
        List.nil_append, List.map_cons, List.map_nil]
      rw [digitChar_toNat n h10, Nat.ofDigits_singleton]
      omega
    · simp only [decReprGo, if_neg h10, List.reverse_append,
        List.reverse_cons, List.reverse_nil, List.nil_append,
        List.singleton_append, List.map_cons]
      rw [Nat.ofDigits_cons, ih (n / 10) (by omega),
        digitChar_toNat (n % 10) (Nat.mod_lt n (by omega))]
      omega

/-- Decimal rendering is injective. -/
theorem decRepr_injective {a b : Nat} (h : decRepr a = decRepr b) : a = b := by
  have ha := decReprGo_val (a + 1) a (Nat.lt_succ_self a)
  have hb := decReprGo_val (b + 1) b (Nat.lt_succ_self b)
  have hab : decReprGo (a + 1) a = decReprGo (b + 1) b := h
  rw [hab, hb] at ha
  exact ha.symm

/-- Characters of a ticket identifier: `T`, `-` or a digit. -/
theorem ticketId_chars {n : Nat} {c : Char} (hc : c ∈ ticketId n) :
    c = 'T' ∨ c = '-' ∨ (48 ≤ c.toNat ∧ c.toNat ≤ 57) := by
  unfold ticketId at hc
  rw [List.mem_append] at hc
  rcases hc with hc | hc
  · rw [show chars ("T-") = ['T', '-'] from rfl] at hc
    simp only [List.mem_cons, List.not_mem_nil, or_false] at hc
    rcases hc with hc | hc
    · exact Or.inl hc
    · exact Or.inr (Or.inl hc)
  · exact Or.inr (Or.inr (decRepr_digits hc))

/-- Single-character replacement is a character map. -/
theorem replaceAll_single (a b : Char) :
    ∀ n s, s.length ≤ n →
      replaceAll [a] [b] s = s.map fun c => if c = a then b else c := by
  intro n
  induction n with
  | zero =>
    intro s hs
    have hnil : s = [] := List.eq_nil_of_length_eq_zero (Nat.le_zero.mp hs)
    subst hnil
    rfl
  | succ n ih =>
    intro s hs
    cases s with
    | nil => rfl
    | cons c rest =>
      have hrlen : rest.length ≤ n := by
        simp only [List.length_cons] at hs; omega
      by_cases hca : c = a
      · subst hca
        have hcond : ([c] : List Char) ≠ [] ∧ ([c]).isPrefixOf (c :: rest) := by
          refine ⟨by simp, ?_⟩
          rw [isPrefixOf_eq_true]
          exact ⟨rest, rfl⟩
        rw [replaceAll_cons_pos [b] hcond]
        simp only [List.length_cons, List.length_nil, List.drop_succ_cons,
          List.drop_zero, List.map_cons, if_pos rfl]
        rw [ih rest hrlen]
        rfl
      · have hcond : ¬(([a] : List Char) ≠ [] ∧ ([a]).isPrefixOf (c :: rest)) := by
          rintro ⟨-, hpre⟩
          rw [isPrefixOf_eq_true] at hpre
          obtain ⟨t, ht⟩ := hpre
          injection ht with h1 _
          exact hca h1.symm
        rw [replaceAll_cons_neg [b] hcond]
        simp only [List.map_cons, if_neg hca]
        rw [ih rest hrlen]

/-- Sanitised fields hold neither `,` nor a newline. -/
theorem sanitizeField_clean (s : List Char) :
    ',' ∉ sanitizeField s ∧ '\n' ∉ sanitizeField s := by
  unfold sanitizeField
  rw [replaceAll_single '\n' ' ' s.length s (Nat.le_refl _)]
  rw [replaceAll_single ',' ' ' _ _ (Nat.le_refl _)]
  rw [List.map_map]
  constructor
  · intro hc
    rw [List.mem_map] at hc
    obtain ⟨x, -, hx⟩ := hc
    simp only [Function.comp] at hx
    by_cases h1 : x = '\n'
    · rw [if_pos h1] at hx
      by_cases h2 : (' ' : Char) = ','
      · exact absurd h2 (by decide)
      · rw [if_neg h2] at hx
        exact absurd hx (by decide)
    · rw [if_neg h1] at hx
      by_cases h2 : x = ','
      · rw [if_pos h2] at hx
        exact absurd hx (by decide)
      · rw [if_neg h2] at hx
        exact h2 hx
  · intro hc
    rw [List.mem_map] at hc
    obtain ⟨x, -, hx⟩ := hc
    simp only [Function.comp] at hx
    by_cases h1 : x = '\n'
    · rw [if_pos h1] at hx
      by_cases h2 : (' ' : Char) = ','
      · exact absurd h2 (by decide)
      · rw [if_neg h2] at hx
        exact absurd hx (by decide)
    · rw [if_neg h1] at hx
      by_cases h2 : x = ','
      · rw [if_pos h2] at hx
        exact absurd hx (by decide)
      · rw [if_neg h2] at hx
        exact h1 hx

/-- Characters of `padZeros` are decimal digits. -/
theorem padZeros_digits {w n : Nat} {c : Char} (hc : c ∈ padZeros w n) :
    48 ≤ c.toNat ∧ c.toNat ≤ 57 := by
  unfold padZeros at hc
  rw [List.mem_append] at hc
  rcases hc with hc | hc
  · have := List.eq_of_mem_replicate hc
    subst this
    decide
  · exact decRepr_digits hc

/-- Characters of an ISO timestamp: digits or `-`, `T`, `:`, `.`. -/
theorem mem_isoTimestamp {t : DateTimeParts} {c : Char}
    (hc : c ∈ isoTimestamp t) :
    (48 ≤ c.toNat ∧ c.toNat ≤ 57) ∨ c = '-' ∨ c = 'T' ∨ c = ':' ∨ c = '.' := by
  unfold isoTimestamp at hc
  rw [List.mem_append] at hc
  rcases hc with hc | hc
  rotate_left
  · split at hc
    · exact absurd hc (List.not_mem_nil c)
    · rw [List.mem_append] at hc
      rcases hc with hc | hc
      · rw [List.mem_singleton] at hc
        exact Or.inr (Or.inr (Or.inr (Or.inr hc)))
      · exact Or.inl (padZeros_digits hc)
  rw [List.mem_append] at hc
  rcases hc with hc | hc
  rotate_left
  · exact Or.inl (padZeros_digits hc)
  rw [List.mem_append] at hc
  rcases hc with hc | hc
  rotate_left
  · rw [List.mem_singleton] at hc
    exact Or.inr (Or.inr (Or.inr (Or.inl hc)))
  rw [List.mem_append] at hc
  rcases hc with hc | hc
  rotate_left
  · exact Or.inl (padZeros_digits hc)
  rw [List.mem_append] at hc
  rcases hc with hc | hc
  rotate_left
  · rw [List.mem_singleton] at hc
    exact Or.inr (Or.inr (Or.inr (Or.inl hc)))
  rw [List.mem_append] at hc
  rcases hc with hc | hc
  rotate_left
  · exact Or.inl (padZeros_digits hc)
  rw [List.mem_append] at hc
  rcases hc with hc | hc
  rotate_left
  · rw [List.mem_singleton] at hc
    exact Or.inr (Or.inr (Or.inl hc))
  rw [List.mem_append] at hc
  rcases hc with hc | hc
  rotate_left
  · exact Or.inl (padZeros_digits hc)
  rw [List.mem_append] at hc
  rcases hc with hc | hc
  rotate_left
  · rw [List.mem_singleton] at hc
    exact Or.inr (Or.inl hc)
  rw [List.mem_append] at hc
  rcases hc with hc | hc
  rotate_left
  · exact Or.inl (padZeros_digits hc)
  rw [List.mem_append] at hc
  rcases hc with hc | hc
  · exact Or.inl (padZeros_digits hc)
  · rw [List.mem_singleton] at hc
    exact Or.inr (Or.inl hc)

/-- A valid priority value holds no comma and no newline. -/
theorem priority_clean {priority : List Char}
    (hp : priority = chars ("low") ∨ priority = chars ("medium") ∨
      priority = chars ("high")) :
    priority.count ',' = 0 ∧ '\n' ∉ priority := by
  rcases hp with rfl | rfl | rfl <;> exact ⟨by decide, by decide⟩

/-- A ticket identifier holds no comma and no newline. -/
theorem ticketId_clean (n : Nat) :
    (ticketId n).count ',' = 0 ∧ '\n' ∉ ticketId n := by
  constructor
  · rw [List.count_eq_zero]
    intro hc
    rcases ticketId_chars hc with h | h | h
    · exact absurd h (by decide)
    · exact absurd h (by decide)
    · exact absurd h (by decide)
  · intro hc
    rcases ticketId_chars hc with h | h | h
    · exact absurd h (by decide)
    · exact absurd h (by decide)
    · exact absurd h (by decide)

/-- An ISO timestamp holds no comma and no newline. -/
theorem isoTimestamp_clean (t : DateTimeParts) :
    (isoTimestamp t).count ',' = 0 ∧ '\n' ∉ isoTimestamp t := by
  constructor
  · rw [List.count_eq_zero]
    intro hc
    rcases mem_isoTimestamp hc with h | h | h | h | h
    · exact absurd h (by decide)
    · exact absurd h (by decide)
    · exact absurd h (by decide)
    · exact absurd h (by decide)
    · exact absurd h (by decide)
  · intro hc
    rcases mem_isoTimestamp hc with h | h | h | h | h
    · exact absurd h (by decide)
    · exact absurd h (by decide)
    · exact absurd h (by decide)
    · exact absurd h (by decide)
    · exact absurd h (by decide)

/-- The persisted record body: exactly four commas, no newline. -/
theorem ticketBody_clean (now : DateTimeParts) (epochMicros : Nat)
    (title description priority : List Char)
    (hp : priority = chars ("low") ∨ priority = chars ("medium") ∨
      priority = chars ("high")) :
    (ticketBody now epochMicros title description priority).count ',' = 4 ∧
      '\n' ∉ ticketBody now epochMicros title description priority := by
  obtain ⟨hpc, hpn⟩ := priority_clean hp
  obtain ⟨hic, hin⟩ := ticketId_clean epochMicros
  obtain ⟨ht1, ht2⟩ := sanitizeField_clean title
  obtain ⟨hd1, hd2⟩ := sanitizeField_clean description
  obtain ⟨hsc, hsn⟩ := isoTimestamp_clean now
  constructor
  · unfold ticketBody
    simp only [List.count_append]
    rw [List.count_eq_zero.mpr ht1, List.count_eq_zero.mpr hd1, hpc, hic, hsc,
      List.count_singleton_self]
  · unfold ticketBody
    obtain ⟨tid, htid⟩ : ∃ x, ticketId epochMicros = x := ⟨_, rfl⟩
    obtain ⟨s1, hs1⟩ : ∃ x, sanitizeField title = x := ⟨_, rfl⟩
    obtain ⟨s2, hs2⟩ : ∃ x, sanitizeField description = x := ⟨_, rfl⟩
    obtain ⟨iso, hiso⟩ : ∃ x, isoTimestamp now = x := ⟨_, rfl⟩
    rw [htid] at hin
    rw [hs1] at ht2
    rw [hs2] at hd2
    rw [hiso] at hsn
    rw [htid, hs1, hs2, hiso]
    intro hc
    simp only [List.mem_append, List.mem_singleton] at hc
    rcases hc with ((((((((h | h) | h) | h) | h) | h) | h) | h) | h)
    · exact hin h
    · exact absurd h (by decide)
    · exact ht2 h
    · exact absurd h (by decide)
    · exact hd2 h
    · exact absurd h (by decide)
    · exact hpn h
    · exact absurd h (by decide)
    · exact hsn h

/-! ### Claim theorems -/

/-- **C2.** For every input string accepted by `_normalise_query`, the
returned query contains no verbatim occurrence of either recognised
raw JSON-expansion pattern over `directors` — neither
`json_each(directors)` nor `json_each(IFNULL(directors, ''))` — every
occurrence having been replaced by the synthesised JSON-array-literal
expansion. -/
theorem C2_no_raw_pattern_in_output {sql out : List Char}
    (h : normalise_query sql = .ok out) :
    containsB pat1 out = false ∧ containsB pat2 out = false := by
  obtain ⟨h1, h2⟩ := normalised_no_patterns h
  constructor
  · cases hb : containsB pat1 out
    · rfl
    · exact absurd ((containsB_iff pat1 out).mp hb) h1
  · cases hb : containsB pat2 out
    · rfl
    · exact absurd ((containsB_iff pat2 out).mp hb) h2

set_option maxRecDepth 40000 in
/-- Witness for C2: a concrete accepted query holding the raw pattern;
the normalised output is pattern-free. -/
theorem C2_witness :
    containsB pat1 (chars ("select count(*) from netflix_titles, ") ++ safePat)
        = false ∧
      containsB pat2 (chars ("select count(*) from netflix_titles, ") ++ safePat)
        = false :=
  @C2_no_raw_pattern_in_output
    (chars ("select count(*) from netflix_titles, json_each(directors)"))
    (chars ("select count(*) from netflix_titles, ") ++ safePat)
    (by rfl)

set_option maxRecDepth 40000 in
/-- **C3 counterexample.** `_normalise_query` accepts an input that
stacks two statements behind a single `;` separator: the guard only
rejects more than one separator, so statement stacking with one `;` is
not rejected. -/
theorem C3_counterexample :
    normalise_query (chars ("select 1; select 2")) =
      .ok (chars ("select 1; select 2")) := by
  rfl

/-- **C3 (amended).** The separator-count guard bounds the separators,
not the statements: every input accepted by `_normalise_query` (and
its returned query) contains at most one `;`, and inputs with two or
more `;` are rejected; a second statement stacked behind a single `;`
is still accepted. -/
theorem C3_amended_separator_bound {sql out : List Char}
    (h : normalise_query sql = .ok out) :
    sql.count ';' ≤ 1 ∧ out.count ';' ≤ 1 := by
  obtain ⟨-, -, hcnt, hout⟩ := normalise_query_ok_iff.mp h
  have h1 : (pyStrip out).count ';' = sql.count ';' := by
    rw [hout]
    exact count_semi_normalised sql
  have h2 : (pyStrip out).count ';' = out.count ';' :=
    count_pyStrip ';' (by decide) out
  rw [← hout] at hcnt
  omega

set_option maxRecDepth 40000 in
/-- Witness for the amended C3. -/
theorem C3_amended_witness :
    (chars ("select 1; select 2")).count ';' ≤ 1 ∧
      (chars ("select 1; select 2")).count ';' ≤ 1 :=
  @C3_amended_separator_bound (chars ("select 1; select 2"))
    (chars ("select 1; select 2")) (by rfl)

/-- **C4.** `_normalise_query` raises `ValueError` exactly when the
input is empty, or the trimmed lower-cased input does not start with
`select` or `with` (which covers whitespace-only inputs), or the input
contains more than one `;`; for every other input it returns
normally. -/
theorem C4_error_characterisation (sql : List Char) :
    exceptIsOk (normalise_query sql) = false ↔
      sql = [] ∨ startsSelectOrWith sql = false ∨ 1 < sql.count ';' := by
  by_cases h0 : sql = []
  · simp [normalise_query, h0, exceptIsOk]
  · by_cases h1 : startsSelectOrWith sql = true
    · by_cases h2 : 1 < (pyStrip (replaceAll pat2 safePat
          (replaceAll pat1 safePat (pyStrip sql)))).count ';'
      · have h2x : 1 < sql.count ';' := by
          rw [← count_semi_normalised sql]
          exact h2
        simp [normalise_query, h0, h1, h2, h2x, exceptIsOk]
      · have h2x : ¬ 1 < sql.count ';' := by
          rw [← count_semi_normalised sql]
          exact h2
        simp [normalise_query, h0, h1, h2, h2x, exceptIsOk]
    · have h1f : startsSelectOrWith sql = false := by
        cases hx : startsSelectOrWith sql
        · rfl
        · exact absurd hx h1
      simp [normalise_query, h0, h1f, exceptIsOk]

/-- **C10.** `_normalise_query` is idempotent: the output of an
accepted input is itself accepted, and normalising it returns it
unchanged. -/
theorem C10_idempotent {sql out : List Char}
    (h : normalise_query sql = .ok out) :
    normalise_query out = .ok out := by
  obtain ⟨hne, hstart, hcnt, hout⟩ := normalise_query_ok_iff.mp h
  obtain ⟨hnp1, hnp2⟩ := normalised_no_patterns h
  have hww : ∃ w : List Char,
      (w = chars ("select") ∨ w = chars ("with")) ∧
        w <+: (pyStrip sql).map pyLower := by
    rcases startsSelectOrWith_iff.mp hstart with hsel | hwth
    · exact ⟨chars ("select"), Or.inl rfl, hsel⟩
    · exact ⟨chars ("with"), Or.inr rfl, hwth⟩
  obtain ⟨w, hwid, hw⟩ := hww
  have hj : 'j' ∉ w := by
    rcases hwid with rfl | rfl <;> decide
  have hwne : w ≠ [] := by
    rcases hwid with rfl | rfl <;> decide
  have hstne : pyStrip sql ≠ [] := by
    intro hcon
    rw [hcon, List.map_nil, List.prefix_nil] at hw
    exact hwne hw
  have hhead : out.head? = (pyStrip sql).head? := by
    rw [hout]
    exact normalised_head hw hj hwne
  have hlast := normalised_getLast hstne
  have houtne : out ≠ [] := by
    rw [hout]
    exact hlast.1
  have hstrip : pyStrip out = out := by
    apply pyStrip_eq_self
    · intro c hc
      rw [hhead] at hc
      exact pyStrip_head_not_space hc
    · intro c hc
      rw [hout] at hc
      rcases hlast.2 with hl | hl
      · rw [hl] at hc
        exact pyStrip_getLast_not_space hc
      · rw [hl] at hc
        rw [show safePat.getLast? = some ')' from rfl] at hc
        injection hc with hceq
        rw [← hceq]
        decide
  have hstartO : startsSelectOrWith out = true := by
    rw [startsSelectOrWith_iff, hstrip]
    have hwO : w <+: out.map pyLower := by
      obtain ⟨tail, htail⟩ := normalised_keyword_take hw hj
      rw [hout, htail, List.map_append, List.map_take,
        ← List.prefix_iff_eq_take.mp hw]
      exact List.prefix_append w _
    rcases hwid with rfl | rfl
    · exact Or.inl hwO
    · exact Or.inr hwO
  have hid1 : replaceAll pat1 safePat out = out :=
    replaceAll_of_not_infix pat1 safePat out.length out (Nat.le_refl _) hnp1
  have hid2 : replaceAll pat2 safePat out = out :=
    replaceAll_of_not_infix pat2 safePat out.length out (Nat.le_refl _) hnp2
  rw [normalise_query_ok_iff]
  refine ⟨houtne, hstartO, ?_, ?_⟩
  · rw [hstrip, hid1, hid2, hstrip]
    rw [← hout] at hcnt
    rw [hstrip] at hcnt
    exact hcnt
  · rw [hstrip, hid1, hid2]

set_option maxRecDepth 40000 in
/-- Witness for C10 at a concrete accepted query. -/
theorem C10_witness :
    normalise_query (chars ("select count(*) from netflix_titles, ") ++ safePat)
      = .ok (chars ("select count(*) from netflix_titles, ") ++ safePat) :=
  @C10_idempotent
    (chars ("select count(*) from netflix_titles, json_each(directors)"))
    (chars ("select count(*) from netflix_titles, ") ++ safePat)
    (by rfl)

/-- **C7 counterexample.** Two ticket creations at distinct creation
instants (0 µs and 999999 µs after the epoch) receive the same
identifier: `int(utcnow().timestamp())` truncates the timestamp to
whole seconds, so the identifier is second-resolution, not
high-resolution. -/
theorem C7_counterexample :
    (create_support_ticket ⟨2024, 1, 1, 0, 0, 0, 0⟩ 0 (chars ("a"))
        (chars ("b")) (chars ("low")) none).1.ticket_id =
      (create_support_ticket ⟨2024, 1, 1, 0, 0, 0, 999999⟩ 999999 (chars ("a"))
        (chars ("b")) (chars ("low")) none).1.ticket_id ∧
      (0 : Nat) ≠ 999999 :=
  ⟨by rfl, by decide⟩

/-- **C7 (amended).** Ticket identifiers are derived from the
whole-second part of the creation timestamp: two creations whose
instants fall in distinct whole seconds receive distinct identifiers
(creations within the same second may collide). -/
theorem C7_amended_distinct_seconds {t1 t2 : Nat}
    (h : t1 / 1000000 ≠ t2 / 1000000) (now1 now2 : DateTimeParts)
    (title1 title2 desc1 desc2 pr1 pr2 : List Char)
    (store1 store2 : Option (List Char)) :
    (create_support_ticket now1 t1 title1 desc1 pr1 store1).1.ticket_id ≠
      (create_support_ticket now2 t2 title2 desc2 pr2 store2).1.ticket_id := by
  intro hc
  have hid : ticketId t1 = ticketId t2 := hc
  unfold ticketId at hid
  exact h (decRepr_injective (List.append_cancel_left hid))

/-- Witness for the amended C7: instants one whole second apart. -/
theorem C7_amended_witness :
    (create_support_ticket ⟨2024, 1, 1, 0, 0, 0, 0⟩ 0 (chars ("a"))
        (chars ("b")) (chars ("low")) none).1.ticket_id ≠
      (create_support_ticket ⟨2024, 1, 1, 0, 0, 1, 0⟩ 1000000 (chars ("a"))
        (chars ("b")) (chars ("low")) none).1.ticket_id :=
  C7_amended_distinct_seconds (by decide) ⟨2024, 1, 1, 0, 0, 0, 0⟩
    ⟨2024, 1, 1, 0, 0, 1, 0⟩ (chars ("a")) (chars ("a")) (chars ("b"))
    (chars ("b")) (chars ("low")) (chars ("low")) none none

/-- **C8.** For every title and description string — including strings
holding newlines or commas — and every valid priority, the record
persisted by `create_support_ticket` is a single appended line of
exactly 5 comma-delimited fields (ticket_id, title, description,
priority, created_at): the store grows by `body ++ ['\n']`, where the
body holds exactly 4 commas and no newline. -/
theorem C8_record_shape (now : DateTimeParts) (epochMicros : Nat)
    (title description priority : List Char) (store : Option (List Char))
    (hp : priority = chars ("low") ∨ priority = chars ("medium") ∨
      priority = chars ("high")) :
    (create_support_ticket now epochMicros title description priority store).2
        = ensure_ticket_store store
          ++ ticketBody now epochMicros title description priority ++ ['\n'] ∧
      (ticketBody now epochMicros title description priority).count ',' = 4 ∧
      '\n' ∉ ticketBody now epochMicros title description priority := by
  refine ⟨rfl, ?_, ?_⟩
  · exact (ticketBody_clean now epochMicros title description priority hp).1
  · exact (ticketBody_clean now epochMicros title description priority hp).2

set_option maxRecDepth 40000 in
/-- Witness for C8: a title with an embedded newline and a description
with embedded commas. -/
theorem C8_witness :
    (create_support_ticket ⟨2024, 1, 2, 3, 4, 5, 6⟩ 1700000000000000
          (chars ("bad") ++ ['\n'] ++ chars ("data"))
          (chars ("a,b,c")) (chars ("high")) none).2
        = ensure_ticket_store none
          ++ ticketBody ⟨2024, 1, 2, 3, 4, 5, 6⟩ 1700000000000000
            (chars ("bad") ++ ['\n'] ++ chars ("data")) (chars ("a,b,c"))
            (chars ("high")) ++ ['\n'] ∧
      (ticketBody ⟨2024, 1, 2, 3, 4, 5, 6⟩ 1700000000000000
          (chars ("bad") ++ ['\n'] ++ chars ("data")) (chars ("a,b,c"))
          (chars ("high"))).count ',' = 4 ∧
      '\n' ∉ ticketBody ⟨2024, 1, 2, 3, 4, 5, 6⟩ 1700000000000000
          (chars ("bad") ++ ['\n'] ++ chars ("data")) (chars ("a,b,c"))
          (chars ("high")) :=
  C8_record_shape ⟨2024, 1, 2, 3, 4, 5, 6⟩ 1700000000000000
    (chars ("bad") ++ ['\n'] ++ chars ("data")) (chars ("a,b,c"))
    (chars ("high")) none (Or.inr (Or.inr rfl))

/-- Shape of a successful `execute_query`: the engine was consulted on
the normalised SQL and the returned rows are a 200-row cut. -/
theorem execute_query_ok_shape
    {db : List Char → Except (List Char) (List (List Char) × List Row)}
    {sql : List Char} {cols : List (List Char)} {rows : List Row}
    {warned : Bool}
    (h : execute_query db sql = .ok (cols, rows, warned)) :
    ∃ ns allRows, normalise_query sql = .ok ns ∧
      db ns = .ok (cols, allRows) ∧ rows = allRows.take MAX_ROWS := by
  cases hn : normalise_query sql with
  | error e => simp [execute_query, hn] at h
  | ok ns =>
    cases hdb : db ns with
    | error m => simp [execute_query, hn, hdb] at h
    | ok res =>
      obtain ⟨c, ar⟩ := res
      simp only [execute_query, hn, hdb] at h
      cases hhd : (ar.drop MAX_ROWS).head? with
      | none =>
        rw [hhd] at h
        simp only [Except.ok.injEq, Prod.mk.injEq] at h
        obtain ⟨hc, hr, -⟩ := h
        exact ⟨ns, ar, rfl, by rw [hdb, hc], hr.symm⟩
      | some nr =>
        simp only [hhd] at h
        by_cases hnr : nr = []
        · rw [if_neg (by simp [hnr])] at h
          simp only [Except.ok.injEq, Prod.mk.injEq] at h
          obtain ⟨hc, hr, -⟩ := h
          exact ⟨ns, ar, rfl, by rw [hdb, hc], hr.symm⟩
        · rw [if_pos (by simp [hnr])] at h
          simp only [Except.ok.injEq, Prod.mk.injEq] at h
          obtain ⟨hc, hr, -⟩ := h
          refine ⟨ns, ar, rfl, by rw [hdb, hc], ?_⟩
          rw [← hr, List.take_take, Nat.min_self]

/-- **C5.** `execute_query` returns at most the configured maximum of
200 rows regardless of how many rows the query would otherwise
produce; and whenever a further (nonempty) row exists beyond the
bound, the truncation warning is signalled internally. -/
theorem C5_row_bound :
    (∀ db sql cols rows warned,
      execute_query db sql = .ok (cols, rows, warned) →
        rows.length ≤ MAX_ROWS) ∧
    (∀ db sql ns cols allRows,
      normalise_query sql = .ok ns →
      db ns = .ok (cols, allRows) →
      MAX_ROWS < allRows.length →
      (∀ row ∈ allRows, row ≠ ([] : Row)) →
        execute_query db sql = .ok (cols, allRows.take MAX_ROWS, true)) := by
  constructor
  · intro db sql cols rows warned h
    obtain ⟨ns, allRows, -, -, hr⟩ := execute_query_ok_shape h
    rw [hr, List.length_take]
    exact Nat.min_le_left _ _
  · intro db sql ns cols allRows hn hdb hlen hne
    have hdne : allRows.drop MAX_ROWS ≠ [] := by
      intro hcon
      have := congrArg List.length hcon
      rw [List.length_drop] at this
      simp only [List.length_nil] at this
      omega
    obtain ⟨nr, tl, hd⟩ := List.exists_cons_of_ne_nil hdne
    have hhd : (allRows.drop MAX_ROWS).head? = some nr := by
      rw [hd]; rfl
    have hnr : nr ≠ [] := by
      apply hne
      have : nr ∈ allRows.drop MAX_ROWS := by
        rw [hd]; exact List.mem_cons_self nr tl
      exact List.drop_subset MAX_ROWS allRows this
    simp only [execute_query, hn, hdb, hhd]
    rw [if_pos (by simp [hnr])]
    rw [List.take_take, Nat.min_self]

/-- Witness for C5 at a concrete database of 201 one-column rows. -/
theorem C5_witness :
    ((fun db sql => execute_query db sql)
        (fun _ => .ok ([chars ("c")], List.replicate 201 [SQLVal.intV 0]))
        (chars ("select 1"))
      = .ok ([chars ("c")], (List.replicate 201 [SQLVal.intV 0]).take MAX_ROWS,
          true)) ∧
    ((List.replicate 201 ([SQLVal.intV 0] : Row)).take MAX_ROWS).length
      ≤ MAX_ROWS := by
  constructor
  · refine C5_row_bound.2 (fun _ => .ok ([chars ("c")],
      List.replicate 201 [SQLVal.intV 0])) (chars ("select 1"))
      (chars ("select 1")) [chars ("c")] (List.replicate 201 [SQLVal.intV 0])
      (by rfl) rfl ?_ ?_
    · rw [List.length_replicate]
      decide
    · intro row hrow
      have := List.eq_of_mem_replicate hrow
      rw [this]
      decide
  · exact C5_row_bound.1
      (fun _ => .ok ([chars ("c")], List.replicate 201 [SQLVal.intV 0]))
      (chars ("select 1")) [chars ("c")]
      ((List.replicate 201 [SQLVal.intV 0]).take MAX_ROWS) true
      (by
        refine C5_row_bound.2 (fun _ => .ok ([chars ("c")],
          List.replicate 201 [SQLVal.intV 0])) (chars ("select 1"))
          (chars ("select 1")) [chars ("c")]
          (List.replicate 201 [SQLVal.intV 0]) (by rfl) rfl ?_ ?_
        · rw [List.length_replicate]
          decide
        · intro row hrow
          have := List.eq_of_mem_replicate hrow
          rw [this]
          decide)

/-- **C6.** If the tool step succeeds and only the second, follow-up
model call fails, `run_agent` still returns the tool's result: the
fetched columns and rows alongside the error message in the query case,
and the created ticket with the templated fallback confirmation in the
ticket case; the ticket-store append is kept, never rolled back. -/
theorem C6_tool_result_preserved :
    (∀ env now epochMicros store choice q cols rows warned f,
      env.hasApiKey = true →
      env.first = .ok choice →
      choice.finishReason = some (chars ("function_call")) →
      choice.fnName = some (chars ("ask_database")) →
      choice.queryArg = .ok q →
      execute_query env.db q = .ok (cols, rows, warned) →
      env.followUp = .error f →
        run_agent env now epochMicros store =
          ({ error := some (followUpErrMsg f), columns := some cols,
             rows := some rows }, store)) ∧
    (∀ env now epochMicros store choice args f,
      env.hasApiKey = true →
      env.first = .ok choice →
      choice.finishReason = some (chars ("function_call")) →
      choice.fnName = some (chars ("create_support_ticket")) →
      choice.ticketArgs = .ok args →
      env.followUp = .error f →
        run_agent env now epochMicros store =
          ({ text := some (chars ("Ticket created: ")
                ++ (create_support_ticket now epochMicros
                  (amGetD args (chars ("title")) (chars ("Untitled issue")))
                  (amGetD args (chars ("description")) [])
                  (amGetD args (chars ("priority")) (chars ("medium")))
                  store).1.ticket_id
                ++ chars (". (Follow-up call failed: ")
                ++ strOfFailure f ++ [')'])
           , ticket := some (create_support_ticket now epochMicros
                (amGetD args (chars ("title")) (chars ("Untitled issue")))
                (amGetD args (chars ("description")) [])
                (amGetD args (chars ("priority")) (chars ("medium")))
                store).1 },
           some (create_support_ticket now epochMicros
                (amGetD args (chars ("title")) (chars ("Untitled issue")))
                (amGetD args (chars ("description")) [])
                (amGetD args (chars ("priority")) (chars ("medium")))
                store).2)) := by
  constructor
  · intro env now epochMicros store choice q cols rows warned f hkey hfirst
      hfr hfn hq hexec hfu
    simp only [run_agent, hkey, hfirst, hfr, hfn, hq, hexec, hfu]
    simp
  · intro env now epochMicros store choice args f hkey hfirst hfr hfn
      hargs hfu
    have hne : (chars ("create_support_ticket") : List Char)
        ≠ chars ("ask_database") := by decide
    simp only [run_agent, hkey, hfirst, hfr, hfn, hargs, hfu,
      Option.some.injEq, hne]
    simp [hne]

/-- Witness for C6: one concrete query scenario and one concrete ticket
scenario, each with a failing follow-up call. -/
theorem C6_witness :
    (run_agent
        { hasApiKey := true
        , first := .ok
            { finishReason := some (chars ("function_call"))
            , content := none
            , fnName := some (chars ("ask_database"))
            , queryArg := .ok (chars ("select 1"))
            , ticketArgs := .error [] }
        , followUp := .error (CallFailure.other (chars ("boom")))
        , db := fun _ => .ok ([chars ("c")], [[SQLVal.intV 1]]) }
        ⟨2024, 1, 2, 3, 4, 5, 0⟩ 0 none =
      ({ error := some (followUpErrMsg (CallFailure.other (chars ("boom"))))
       , columns := some [chars ("c")]
       , rows := some [[SQLVal.intV 1]] }, none)) ∧
    (run_agent
        { hasApiKey := true
        , first := .ok
            { finishReason := some (chars ("function_call"))
            , content := none
            , fnName := some (chars ("create_support_ticket"))
            , queryArg := .error []
            , ticketArgs := .ok [(chars ("title"), chars ("t"))] }
        , followUp := .error (CallFailure.other (chars ("boom")))
        , db := fun _ => .error [] }
        ⟨2024, 1, 2, 3, 4, 5, 0⟩ 0 none =
      ({ text := some (chars ("Ticket created: ")
            ++ (create_support_ticket ⟨2024, 1, 2, 3, 4, 5, 0⟩ 0
              (amGetD [(chars ("title"), chars ("t"))] (chars ("title"))
                (chars ("Untitled issue")))
              (amGetD [(chars ("title"), chars ("t"))] (chars ("description")) [])
              (amGetD [(chars ("title"), chars ("t"))] (chars ("priority"))
                (chars ("medium"))) none).1.ticket_id
            ++ chars (". (Follow-up call failed: ")
            ++ strOfFailure (CallFailure.other (chars ("boom"))) ++ [')'])
       , ticket := some (create_support_ticket ⟨2024, 1, 2, 3, 4, 5, 0⟩ 0
            (amGetD [(chars ("title"), chars ("t"))] (chars ("title"))
              (chars ("Untitled issue")))
            (amGetD [(chars ("title"), chars ("t"))] (chars ("description")) [])
            (amGetD [(chars ("title"), chars ("t"))] (chars ("priority"))
              (chars ("medium"))) none).1 },
       some (create_support_ticket ⟨2024, 1, 2, 3, 4, 5, 0⟩ 0
            (amGetD [(chars ("title"), chars ("t"))] (chars ("title"))
              (chars ("Untitled issue")))
            (amGetD [(chars ("title"), chars ("t"))] (chars ("description")) [])
            (amGetD [(chars ("title"), chars ("t"))] (chars ("priority"))
              (chars ("medium"))) none).2)) := by
  constructor
  · exact C6_tool_result_preserved.1 _ ⟨2024, 1, 2, 3, 4, 5, 0⟩ 0 none _
      (chars ("select 1")) [chars ("c")] [[SQLVal.intV 1]] false
      (CallFailure.other (chars ("boom"))) rfl rfl rfl rfl rfl (by rfl) rfl
  · exact C6_tool_result_preserved.2 _ ⟨2024, 1, 2, 3, 4, 5, 0⟩ 0 none _
      [(chars ("title"), chars ("t"))]
      (CallFailure.other (chars ("boom"))) rfl rfl rfl rfl rfl rfl

/-- **C9 (amended).** The dispatcher defaults the ticket priority to
`medium` exactly when the argument is omitted; a supplied priority
value is passed through to ticket creation unvalidated — whether or
not it lies in {low, medium, high} — and is what gets persisted. -/
theorem C9_amended_priority_passthrough :
    (∀ args : ArgMap, amGet args (chars ("priority")) = none →
      amGetD args (chars ("priority")) (chars ("medium")) = chars ("medium")) ∧
    (∀ (args : ArgMap) pv, amGet args (chars ("priority")) = some pv →
      amGetD args (chars ("priority")) (chars ("medium")) = pv) ∧
    (∀ env now epochMicros store choice args,
      env.hasApiKey = true →
      env.first = .ok choice →
      choice.finishReason = some (chars ("function_call")) →
      choice.fnName = some (chars ("create_support_ticket")) →
      choice.ticketArgs = .ok args →
        (run_agent env now epochMicros store).1.ticket =
          some (create_support_ticket now epochMicros
            (amGetD args (chars ("title")) (chars ("Untitled issue")))
            (amGetD args (chars ("description")) [])
            (amGetD args (chars ("priority")) (chars ("medium"))) store).1) := by
  refine ⟨?_, ?_, ?_⟩
  · intro args h
    unfold amGetD
    rw [h]
    rfl
  · intro args pv h
    unfold amGetD
    rw [h]
    rfl
  · intro env now epochMicros store choice args hkey hfirst hfr hfn hargs
    have hne : (chars ("create_support_ticket") : List Char)
        ≠ chars ("ask_database") := by decide
    cases hfu : env.followUp with
    | error f =>
      simp only [run_agent, hkey, hfirst, hfr, hfn, hargs, hfu,
        Option.some.injEq, hne]
      simp [hne]
    | ok contentOpt =>
      simp only [run_agent, hkey, hfirst, hfr, hfn, hargs, hfu,
        Option.some.injEq, hne]
      simp [hne]

set_option maxRecDepth 40000 in
/-- **C9 counterexample.** A model-supplied priority outside
{low, medium, high} — here `urgent` — is passed through to ticket
creation and persisted: the returned ticket carries priority `urgent`
and the ticket store gains a `,urgent,` field. -/
theorem C9_counterexample :
    ((run_agent
        { hasApiKey := true
        , first := .ok
            { finishReason := some (chars ("function_call"))
            , content := none
            , fnName := some (chars ("create_support_ticket"))
            , queryArg := .error []
            , ticketArgs := .ok [(chars ("priority"), chars ("urgent"))] }
        , followUp := .ok (some (chars ("done")))
        , db := fun _ => .error [] }
        ⟨2024, 1, 2, 3, 4, 5, 6⟩ 1700000000000000 none).1.ticket.map
          Ticket.priority = some (chars ("urgent"))) ∧
      containsB (chars (",urgent,"))
        ((run_agent
          { hasApiKey := true
          , first := .ok
              { finishReason := some (chars ("function_call"))
              , content := none
              , fnName := some (chars ("create_support_ticket"))
              , queryArg := .error []
              , ticketArgs := .ok [(chars ("priority"), chars ("urgent"))] }
          , followUp := .ok (some (chars ("done")))
          , db := fun _ => .error [] }
          ⟨2024, 1, 2, 3, 4, 5, 6⟩ 1700000000000000 none).2.getD [])
        = true := by
  constructor
  · rfl
  · rfl

set_option maxRecDepth 40000 in
/-- Witness for the amended C9: the default fires on an empty argument
object, the passthrough fires on `priority = urgent`, and the
dispatcher hands the looked-up priority to ticket creation. -/
theorem C9_witness :
    amGetD [] (chars ("priority")) (chars ("medium")) = chars ("medium") ∧
    amGetD [(chars ("priority"), chars ("urgent"))] (chars ("priority"))
        (chars ("medium")) = chars ("urgent") ∧
    (run_agent
        { hasApiKey := true
        , first := .ok
            { finishReason := some (chars ("function_call"))
            , content := none
            , fnName := some (chars ("create_support_ticket"))
            , queryArg := .error []
            , ticketArgs := .ok [(chars ("priority"), chars ("urgent"))] }
        , followUp := .ok (some (chars ("done")))
        , db := fun _ => .error [] }
        ⟨2024, 1, 2, 3, 4, 5, 6⟩ 0 none).1.ticket =
      some (create_support_ticket ⟨2024, 1, 2, 3, 4, 5, 6⟩ 0
        (amGetD [(chars ("priority"), chars ("urgent"))] (chars ("title"))
          (chars ("Untitled issue")))
        (amGetD [(chars ("priority"), chars ("urgent"))] (chars ("description"))
          [])
        (amGetD [(chars ("priority"), chars ("urgent"))] (chars ("priority"))
          (chars ("medium"))) none).1 :=
  ⟨C9_amended_priority_passthrough.1 [] rfl,
   C9_amended_priority_passthrough.2.1 [(chars ("priority"), chars ("urgent"))]
     (chars ("urgent")) (by rfl),
   C9_amended_priority_passthrough.2.2 _ ⟨2024, 1, 2, 3, 4, 5, 6⟩ 0 none _
     [(chars ("priority"), chars ("urgent"))] rfl rfl rfl rfl rfl⟩

/-- **C1 (amended).** On the fully successful query path the dispatcher
returns the *model-supplied* query string (pre-trim, pre-rewrite) in
the `query` field — not the rewritten SQL actually passed to the
engine; the two coincide only when normalisation leaves the query
unchanged. -/
theorem C1_amended_returns_original_query :
    ∀ env now epochMicros store choice q cols rows warned contentOpt,
      env.hasApiKey = true →
      env.first = .ok choice →
      choice.finishReason = some (chars ("function_call")) →
      choice.fnName = some (chars ("ask_database")) →
      choice.queryArg = .ok q →
      execute_query env.db q = .ok (cols, rows, warned) →
      env.followUp = .ok contentOpt →
        run_agent env now epochMicros store =
          ({ text := some (pyStrip (contentOpt.getD []))
           , columns := some cols, rows := some rows
           , query := some q }, store) := by
  intro env now epochMicros store choice q cols rows warned contentOpt
    hkey hfirst hfr hfn hq hexec hfu
  simp only [run_agent, hkey, hfirst, hfr, hfn, hq, hexec, hfu]
  simp

set_option maxRecDepth 40000 in
/-- **C1 counterexample.** With a model query containing the raw
pattern, the oracle engine only answers the rewritten SQL (so the
error-free run proves the rewritten text was executed), yet the
returned `query` field holds the original model-supplied string, which
differs from the SQL actually executed. -/
theorem C1_counterexample :
    ((run_agent
        { hasApiKey := true
        , first := .ok
            { finishReason := some (chars ("function_call"))
            , content := none
            , fnName := some (chars ("ask_database"))
            , queryArg := .ok (chars
                ("select value from netflix_titles, json_each(directors) limit 10"))
            , ticketArgs := .error [] }
        , followUp := .ok (some (chars ("done")))
        , db := fun s =>
            if s = chars ("select value from netflix_titles, ") ++ safePat
                ++ chars (" limit 10")
            then .ok ([chars ("value")], [[SQLVal.textV (chars ("A"))]])
            else .error (chars ("no such table")) }
        ⟨2024, 1, 2, 3, 4, 5, 6⟩ 0 none).1.query =
      some (chars
        ("select value from netflix_titles, json_each(directors) limit 10"))) ∧
    ((run_agent
        { hasApiKey := true
        , first := .ok
            { finishReason := some (chars ("function_call"))
            , content := none
            , fnName := some (chars ("ask_database"))
            , queryArg := .ok (chars
                ("select value from netflix_titles, json_each(directors) limit 10"))
            , ticketArgs := .error [] }
        , followUp := .ok (some (chars ("done")))
        , db := fun s =>
            if s = chars ("select value from netflix_titles, ") ++ safePat
                ++ chars (" limit 10")
            then .ok ([chars ("value")], [[SQLVal.textV (chars ("A"))]])
            else .error (chars ("no such table")) }
        ⟨2024, 1, 2, 3, 4, 5, 6⟩ 0 none).1.error = none) ∧
    chars ("select value from netflix_titles, json_each(directors) limit 10")
      ≠ chars ("select value from netflix_titles, ") ++ safePat
        ++ chars (" limit 10") := by
  refine ⟨?_, ?_, ?_⟩
  · rfl
  · rfl
  · decide

set_option maxRecDepth 40000 in
/-- Witness for the amended C1 at a concrete environment whose query
is rewritten before execution. -/
theorem C1_amended_witness :
    run_agent
        { hasApiKey := true
        , first := .ok
            { finishReason := some (chars ("function_call"))
            , content := none
            , fnName := some (chars ("ask_database"))
            , queryArg := .ok (chars
                ("select value from netflix_titles, json_each(directors) limit 10"))
            , ticketArgs := .error [] }
        , followUp := .ok (some (chars ("done")))
        , db := fun s =>
            if s = chars ("select value from netflix_titles, ") ++ safePat
                ++ chars (" limit 10")
            then .ok ([chars ("value")], [[SQLVal.textV (chars ("A"))]])
            else .error (chars ("no such table")) }
        ⟨2024, 1, 2, 3, 4, 5, 6⟩ 0 none =
      ({ text := some (pyStrip ((some (chars ("done"))).getD []))
       , columns := some [chars ("value")]
       , rows := some [[SQLVal.textV (chars ("A"))]]
       , query := some (chars
           ("select value from netflix_titles, json_each(directors) limit 10")) },
       none) :=
  C1_amended_returns_original_query _ ⟨2024, 1, 2, 3, 4, 5, 6⟩ 0 none _
    (chars ("select value from netflix_titles, json_each(directors) limit 10"))
    [chars ("value")] [[SQLVal.textV (chars ("A"))]] false
    (some (chars ("done"))) rfl rfl rfl rfl rfl (by rfl) rfl
